import Mathlib

/-!
Verification development for the hoe-chat-bot repository: a shallow
embedding in Lean 4 of the response parser (`src/providers/hoe.provider.ts`),
the message formatter and shutdown service (`src/services/shutdown.service.ts`),
the retry executor (`src/utils/retry.ts`), the state repository
(`src/repositories/state.repository.ts`), the Telegram dispatcher
(`src/providers/telegram.provider.ts`) and the notification orchestrator
(`src/services/notification.service.ts`), together with theorems settling
the frozen specification claims.

Modelling conventions:
* JavaScript machine integers that matter here (chat ids, event counters)
  are modelled as `Int`/`Nat`; no overflow is relevant to any claim.
* Fallible JavaScript code (code that can throw) is modelled with
  `Except String`; `undefined`/absent values with `Option`.
* External effects (HTTP fetch, Telegram send, file system, SHA-256,
  the process clock and timezone) are passed in as explicit parameters,
  so every definition is a pure executable function.
-/

namespace HoeBot

/-- Model of a parsed JSON value, as produced by a successful
`JSON.parse`.  Object keys are unique after parsing (duplicate keys
keep the last occurrence), so lookup by first match is exact.
JSON numbers are modelled as integers; no claim depends on
fractional numeric formatting. -/
inductive Json where
  | null : Json
  | bool : Bool → Json
  | num : Int → Json
  | str : String → Json
  | arr : List Json → Json
  | obj : List (String × Json) → Json

/-- Model of the event id field, which in the source has TypeScript type
`string | number`: the HTML table parser produces numeric ids, JSON
normalization produces string ids. -/
inductive EventId where
  | num : Nat → EventId
  | str : String → EventId
deriving DecidableEq

/-- The `ShutdownEvent` record from `src/types/index.ts`. -/
structure ShutdownEvent where
  id : EventId
  dateStart : String
  dateEnd : String
  type : String
  shutdownType : String
  queueGpv : String
  queueGav : String
  status : String
  comment : Option String
  address : Option String
deriving DecidableEq

/-- JavaScript `String(v)` coercion restricted to JSON values: strings
unchanged, numbers and booleans printed, `null` prints as "null",
arrays print as their comma-joined elements with `null` elements
printed as the empty string (Array.prototype.toString), plain objects
print as "[object Object]". -/
def jsToString : Json → String
  | Json.null => "null"
  | Json.bool b => cond b "true" "false"
  | Json.num n => toString n
  | Json.str s => s
  | Json.obj _ => "[object Object]"
  | Json.arr xs => jsArrayToString xs
where
  /-- Comma-joined rendering of an array, per Array.prototype.toString. -/
  jsArrayToString : List Json → String
  | [] => ""
  | [x] =>
    match x with
    | Json.null => ""
    | y => jsToString y
  | x :: y :: xs =>
    (match x with
     | Json.null => ""
     | z => jsToString z) ++ "," ++ jsArrayToString (y :: xs)

/-- JavaScript property read `v[key]` on a JSON value: a lookup on
objects, `undefined` (here `none`) on every other non-null value.
Reading a property of `null` throws and is handled separately in
`normalizeEvent`. -/
def getField (j : Json) (key : String) : Option Json :=
  match j with
  | Json.obj fields => fields.lookup key
  | _ => none

/-- The nullish-coalescing chain `event.a ?? event.b ?? ...` from
`normalizeEvent`: the first alias whose value is present and not
`null`, or `none` when every alias is absent or `null`. -/
def aliasChain (j : Json) : List String → Option Json
  | [] => none
  | k :: ks =>
    match getField j k with
    | none => aliasChain j ks
    | some Json.null => aliasChain j ks
    | some v => some v

/-- JavaScript truthiness of an optional JSON value: absent, `null`,
`false`, `0` and the empty string are falsy; objects and arrays are
always truthy. -/
def truthy : Option Json → Bool
  | none => false
  | some Json.null => false
  | some (Json.bool b) => b
  | some (Json.num n) => decide (n ≠ 0)
  | some (Json.str s) => decide (s ≠ "")
  | some (Json.arr _) => true
  | some (Json.obj _) => true

/-- The field computation of `normalizeEvent` (`hoe.provider.ts` lines
208-223) on a raw element whose property reads do not throw. -/
def normalizeEventCore (j : Json) : ShutdownEvent :=
  { id := EventId.str (jsToString ((aliasChain j ["id", "eventId"]).getD (Json.str "")))
    dateStart := jsToString ((aliasChain j ["dateStart", "date_start", "startDate"]).getD (Json.str ""))
    dateEnd := jsToString ((aliasChain j ["dateEnd", "date_end", "endDate"]).getD (Json.str ""))
    type := jsToString ((aliasChain j ["type", "eventType"]).getD (Json.str "Невідомо"))
    shutdownType := jsToString ((aliasChain j ["shutdownType", "shutdown_type"]).getD (Json.str ""))
    queueGpv := jsToString ((aliasChain j ["queueGpv", "queue_gpv"]).getD (Json.str "-"))
    queueGav := jsToString ((aliasChain j ["queueGav", "queue_gav"]).getD (Json.str "-"))
    status := jsToString ((aliasChain j ["status"]).getD (Json.str "Заплановано"))
    comment := if truthy (getField j "comment") then some (jsToString ((getField j "comment").getD Json.null)) else none
    address := if truthy (getField j "address") then some (jsToString ((getField j "address").getD Json.null)) else none }

/-- `normalizeEvent` from `hoe.provider.ts`: the unchecked cast
`raw as Record<string, unknown>` followed by property reads throws a
TypeError at runtime exactly when the raw element is `null` (every
other JSON value supports property access); otherwise it builds the
normalized record. -/
def normalizeEvent (j : Json) : Except String ShutdownEvent :=
  match j with
  | Json.null => Except.error "TypeError: Cannot read properties of null"
  | _ => Except.ok (normalizeEventCore j)

/-- `data.map(normalizeEvent)`: JavaScript `Array.prototype.map` runs the
callback left to right and propagates the first thrown exception. -/
def normalizeList : List Json → Except String (List ShutdownEvent)
  | [] => Except.ok []
  | x :: xs =>
    match normalizeEvent x with
    | Except.error e => Except.error e
    | Except.ok ev =>
      match normalizeList xs with
      | Except.error e => Except.error e
      | Except.ok evs => Except.ok (ev :: evs)

/-- `parseHoeResponse` from `hoe.provider.ts` lines 181-203: a JSON array
is normalized elementwise; an object whose `data` property is an array
(arrays are always truthy, so `response.data && Array.isArray(response.data)`
reduces to that) has its `data` normalized; every other object — including
the `success: true` empty response — and every scalar yields the empty
list after a warning log. -/
def parseHoeResponse : Json → Except String (List ShutdownEvent)
  | Json.arr xs => normalizeList xs
  | Json.obj fields =>
    (match fields.lookup "data" with
     | some (Json.arr xs) => normalizeList xs
     | _ => Except.ok [])
  | _ => Except.ok []

/-- The non-HTML branch of `fetchShutdownEvents` (`hoe.provider.ts` lines
68-79): `JSON.parse` is the JavaScript builtin, modelled by its outcome —
`none` for a parse failure (the catch block logs and returns `[]`),
`some j` for a successful parse, which is handed to `parseHoeResponse`. -/
def parseNonHtmlPayload : Option Json → Except String (List ShutdownEvent)
  | none => Except.ok []
  | some j => parseHoeResponse j

/-- Case-insensitive prefix test: the pattern is given in lower case and
compared against the lower-cased input, modelling the `i` regex flag. -/
def lowerPrefix : List Char → List Char → Bool
  | [], _ => true
  | _ :: _, [] => false
  | p :: ps, c :: cs => decide (p = c.toLower) && lowerPrefix ps cs

/-- Consume `[^>]*>`: drop every character up to and including the first
occurrence of the given character, returning the suffix after it, or
`none` when the character never occurs (the regex then fails at this
start position). -/
def dropThrough (ch : Char) : List Char → Option (List Char)
  | [] => none
  | c :: rest => if c = ch then some rest else dropThrough ch rest

/-- Lazy search `([\s\S]*?)pat`: split at the first (case-insensitive)
occurrence of the pattern, returning the content before it and the
suffix after it. -/
def splitAtPattern (pat : List Char) : List Char → Option (List Char × List Char)
  | [] => none
  | c :: rest =>
    if lowerPrefix pat (c :: rest) then some ([], (c :: rest).drop pat.length)
    else
      match splitAtPattern pat rest with
      | some (pre, post) => some (c :: pre, post)
      | none => none

/-- Leftmost match of the regex `openTag[^>]*>([\s\S]*?)closeTag` with the
`i` flag (the shape of the tbody/row/cell regexes in `parseHtmlTable`):
at each start position, match the opening tag, consume greedily to the
first `>` (the only `>` the backtracker can accept), then take the
shortest content followed by the closing tag; on failure advance the
start position by one character.  Returns the captured content and the
suffix after the match (the regex `lastIndex` continuation point). -/
def matchTagBlock (openTag closeTag : List Char) : List Char → Option (List Char × List Char)
  | [] => none
  | c :: rest =>
    if lowerPrefix openTag (c :: rest) then
      match dropThrough '>' ((c :: rest).drop openTag.length) with
      | some afterGt =>
        match splitAtPattern closeTag afterGt with
        | some (content, after) => some (content, after)
        | none => matchTagBlock openTag closeTag rest
      | none => matchTagBlock openTag closeTag rest
    else matchTagBlock openTag closeTag rest

/-- Fuelled iteration of `regex.exec` with the `g` flag: collect the
captured contents of successive non-overlapping leftmost matches.  Each
successful match consumes at least one character, so fuel
`s.length + 1` is never exhausted (`extractBlocksF_fuel_irrelevant`);
the fuel only makes the recursion structural. -/
def extractBlocksF (openTag closeTag : List Char) : Nat → List Char → List (List Char)
  | 0, _ => []
  | fuel + 1, s =>
    match matchTagBlock openTag closeTag s with
    | none => []
    | some (content, rest) => content :: extractBlocksF openTag closeTag fuel rest

/-- All captured groups of the global regex `openTag[^>]*>([\s\S]*?)closeTag`
over the input, in match order. -/
def extractBlocks (openTag closeTag : List Char) (s : List Char) : List (List Char) :=
  extractBlocksF openTag closeTag (s.length + 1) s

/-- Fuelled global replace of `/<[^>]*>/` by the empty string: at a `<`
that is followed by some `>`, drop through that `>` and continue after
it; a `<` never followed by `>` does not match and is kept.  Fuel
`s.length + 1` is never exhausted (`stripTagsF_fuel_irrelevant`). -/
def stripTagsF : Nat → List Char → List Char
  | 0, s => s
  | fuel + 1, s =>
    match s with
    | [] => []
    | c :: rest =>
      if c = '<' then
        match dropThrough '>' rest with
        | some after => stripTagsF fuel after
        | none => c :: stripTagsF fuel rest
      else c :: stripTagsF fuel rest

/-- `cellMatch[1].replace(/<[^>]*>/g, '')`. -/
def stripTags (s : List Char) : List Char :=
  stripTagsF (s.length + 1) s

/-- JavaScript `String.prototype.trim`: whitespace removed from both
ends. -/
def trimChars (s : List Char) : List Char :=
  ((s.dropWhile Char.isWhitespace).reverse.dropWhile Char.isWhitespace).reverse

/-- JavaScript `String.prototype.includes` (case-sensitive substring
test). -/
def containsSub (pat : List Char) : List Char → Bool
  | [] => pat.isPrefixOf []
  | c :: rest => pat.isPrefixOf (c :: rest) || containsSub pat rest

/-- The cell values of one row: every `<td[^>]*>([\s\S]*?)</td>` capture,
tags stripped and trimmed. -/
def extractCells (row : List Char) : List String :=
  (extractBlocks "<td".data "</td>".data row).map (fun c => String.mk (trimChars (stripTags c)))

/-- The row contents of the tbody region: every
`<tr[^>]*>([\s\S]*?)</tr>` capture. -/
def extractRows (tbody : List Char) : List (List Char) :=
  extractBlocks "<tr".data "</tr>".data tbody

/-- A row qualifies when it yields at least six cells. -/
def qualRow (row : List Char) : Bool :=
  decide (6 ≤ (extractCells row).length)

/-- The event built from one qualifying row: the first six cells in fixed
column order, a numeric id, and the status derived from the shutdown
type cell. -/
def mkEventFromCells (n : Nat) (cells : List String) : ShutdownEvent :=
  { id := EventId.num n
    type := cells.getD 0 ""
    shutdownType := cells.getD 1 ""
    queueGpv := cells.getD 2 ""
    queueGav := cells.getD 3 ""
    dateStart := cells.getD 4 ""
    dateEnd := cells.getD 5 ""
    status := if cells.getD 1 "" = "Аварійне" then "Аварійне" else "Заплановано"
    comment := none
    address := none }

/-- The while loop of `parseHtmlTable`: an incrementing `eventId` counter
that pushes one event per qualifying row and silently skips the rest. -/
def buildEvents : List (List Char) → Nat → List ShutdownEvent
  | [], _ => []
  | r :: rs, n =>
    if qualRow r then mkEventFromCells n (extractCells r) :: buildEvents rs (n + 1)
    else buildEvents rs n

/-- `parseHtmlTable` from `hoe.provider.ts` lines 124-176: require the
`table-shutdowns` marker, extract the first tbody region, then number
and convert the qualifying rows starting from event id 1. -/
def parseHtmlTable (html : String) : List ShutdownEvent :=
  if containsSub "table-shutdowns".data html.data then
    match matchTagBlock "<tbody".data "</tbody>".data html.data with
    | none => []
    | some (tbody, _) => buildEvents (extractRows tbody) 1
  else []

/-- `isHtmlResponse` from `hoe.provider.ts` lines 100-109. -/
def isHtmlResponse (text : String) : Bool :=
  let trimmed := trimChars text.data
  "<".data.isPrefixOf trimmed || "<!DOCTYPE".data.isPrefixOf trimmed ||
    containsSub "<div".data text.data || containsSub "<html".data text.data ||
    containsSub "<table".data text.data

/-- `isNoShutdownsAlert` from `hoe.provider.ts` lines 114-119. -/
def isNoShutdownsAlert (text : String) : Bool :=
  containsSub "alert-info".data text.data &&
    containsSub "відсутнє зареєстроване відключення".data text.data

/-- Observable outcome of one `withRetry` run: the final result (`error
none` can only arise from zero attempts, which the orchestrator never
requests), the `onRetry` callback invocations in order (error and
1-based attempt number), the waits performed between attempts, and the
1-based indices of the attempts actually executed. -/
structure RetryOut (E A : Type) where
  result : Except (Option E) A
  calls : List (E × Nat)
  waits : List Nat
  tried : List Nat

/-- The attempt loop of `withRetry` (`src/utils/retry.ts` lines 18-45)
over the remaining attempt indices.  The operation is modelled as a
function from the attempt number to that attempt's outcome.  On a
non-final failure the callback fires with the error and attempt number
and the loop waits `delayMs`; after the final failure the last observed
error is rethrown. -/
def retryAux (op : Nat → Except E A) (delayMs : Nat) : List Nat → Option E → RetryOut E A
  | [], last => ⟨Except.error last, [], [], []⟩
  | [i], _ =>
    match op i with
    | Except.ok a => ⟨Except.ok a, [], [], [i]⟩
    | Except.error e => ⟨Except.error (some e), [], [], [i]⟩
  | i :: j :: rest, _ =>
    match op i with
    | Except.ok a => ⟨Except.ok a, [], [], [i]⟩
    | Except.error e =>
      let out := retryAux op delayMs (j :: rest) (some e)
      ⟨out.result, (e, i) :: out.calls, delayMs :: out.waits, i :: out.tried⟩

/-- `withRetry(fn, { attempts, delayMs, onRetry })`: run the attempt loop
over attempt numbers 1..attempts. -/
def withRetry (op : Nat → Except E A) (attempts delayMs : Nat) : RetryOut E A :=
  retryAux op delayMs (List.range' 1 attempts) none

/-- Civil date from a day count since 1970-01-01 (proleptic Gregorian),
with C-style truncated integer division as in the reference algorithm. -/
def civilFromDays (z0 : Int) : Int × Int × Int :=
  let z := z0 + 719468
  let era := (if 0 ≤ z then z else z - 146096) / 146097
  let doe := z - era * 146097
  let yoe := (doe - doe / 1460 + doe / 36524 - doe / 146096) / 365
  let y := yoe + era * 400
  let doy := doe - (365 * yoe + yoe / 4 - yoe / 100)
  let mp := (5 * doy + 2) / 153
  let d := doy - (153 * mp + 2) / 5 + 1
  let m := if mp < 10 then mp + 3 else mp - 9
  (if m ≤ 2 then y + 1 else y, m, d)

/-- Day count since 1970-01-01 of a civil date (proleptic Gregorian). -/
def daysFromCivil (y0 m d : Int) : Int :=
  let y := if m ≤ 2 then y0 - 1 else y0
  let era := (if 0 ≤ y then y else y - 399) / 400
  let yoe := y - era * 400
  let mp := if 2 < m then m - 3 else m + 9
  let doy := (153 * mp + 2) / 5 + d - 1
  let doe := yoe * 365 + yoe / 4 - yoe / 100 + doy
  era * 146097 + doe - 719468

/-- Decimal digit value of a character, `none` for non-digits. -/
def digitVal (c : Char) : Option Nat :=
  if c.isDigit then some (c.toNat - 48) else none

/-- The JavaScript `new Date(dateStr)` parse, modelled for the
unambiguous ISO-8601 UTC shape `YYYY-MM-DDTHH:MM:SSZ` (yielding minutes
since the epoch; seconds do not reach the rendered output) and treating
every other input as unparseable (`NaN`, so `formatDateTime` returns
the original string).  Engine-specific leniency for other shapes is
outside the model; no theorem evaluates the formatter on them. -/
def parseIsoUtc (s : String) : Option Int :=
  match s.data with
  | [y1, y2, y3, y4, '-', m1, m2, '-', d1, d2, 'T', h1, h2, ':', n1, n2, ':', s1, s2, 'Z'] =>
    match digitVal y1, digitVal y2, digitVal y3, digitVal y4, digitVal m1, digitVal m2,
        digitVal d1, digitVal d2, digitVal h1, digitVal h2, digitVal n1, digitVal n2,
        digitVal s1, digitVal s2 with
    | some a, some b, some c, some d, some me1, some me2, some de1, some de2,
      some he1, some he2, some ne1, some ne2, some _, some _ =>
      let yr : Int := Int.ofNat (a * 1000 + b * 100 + c * 10 + d)
      let mo : Int := Int.ofNat (me1 * 10 + me2)
      let dy : Int := Int.ofNat (de1 * 10 + de2)
      let hr : Int := Int.ofNat (he1 * 10 + he2)
      let mi : Int := Int.ofNat (ne1 * 10 + ne2)
      if 1 ≤ mo ∧ mo ≤ 12 ∧ 1 ≤ dy ∧ dy ≤ 31 ∧ hr ≤ 23 ∧ mi ≤ 59 then
        some (daysFromCivil yr mo dy * 1440 + hr * 60 + mi)
      else none
    | _, _, _, _, _, _, _, _, _, _, _, _, _, _ => none
  | _ => none

/-- Two-digit zero-padded rendering. -/
def pad2 (n : Int) : String :=
  if n < 10 then "0" ++ toString n else toString n

/-- `date.toLocaleString('uk-UA', { day: '2-digit', month: '2-digit',
year: 'numeric', hour: '2-digit', minute: '2-digit' })`.  The locale is
hard-coded, but no `timeZone` option is passed, so the rendering shifts
the UTC instant by the process's current timezone offset — modelled by
the explicit `tzOffsetMin` parameter standing for the environment. -/
def renderUkDateTime (tzOffsetMin : Int) (epochMin : Int) : String :=
  let t := epochMin + tzOffsetMin
  let days := Int.fdiv t 1440
  let mins := t - days * 1440
  match civilFromDays days with
  | (y, m, d) =>
    pad2 d ++ "." ++ pad2 m ++ "." ++ toString y ++ ", " ++ pad2 (mins / 60) ++ ":" ++ pad2 (mins % 60)

/-- `formatDateTime` from `src/services/shutdown.service.ts` lines 33-52:
empty input renders the unknown marker, unparseable input is returned
verbatim, and a parsed date is rendered in the uk-UA display shape
shifted by the process timezone offset `tzOffsetMin`. -/
def formatDateTime (tzOffsetMin : Int) (dateStr : String) : String :=
  if dateStr = "" then "Невідомо"
  else
    match parseIsoUtc dateStr with
    | none => dateStr
    | some epochMin => renderUkDateTime tzOffsetMin epochMin

/-- Render an optional line: skipped when the value is absent or the
empty string (JavaScript truthiness of the field). -/
def optionalLine (label : String) (v : Option String) : String :=
  match v with
  | none => ""
  | some s => if s = "" then "" else "\n" ++ label ++ s

/-- `formatEvent` from `shutdown.service.ts` lines 8-28. -/
def formatEvent (tzOffsetMin : Int) (event : ShutdownEvent) (index : Nat) : String :=
  "<b>" ++ toString (index + 1) ++ ". " ++ event.type ++ "</b>" ++
    "\n📅 Початок: " ++ formatDateTime tzOffsetMin event.dateStart ++
    "\n📅 Кінець: " ++ formatDateTime tzOffsetMin event.dateEnd ++
    (if event.status = "" then "" else "\n📋 Статус: " ++ event.status) ++
    optionalLine "📍 Адреса: " event.address ++
    optionalLine "💬 Коментар: " event.comment

/-- Index the events 0,1,2,... for `events.map((event, i) => ...)`. -/
def formatEventsFrom (tzOffsetMin : Int) : Nat → List ShutdownEvent → List String
  | _, [] => []
  | i, e :: es => formatEvent tzOffsetMin e i :: formatEventsFrom tzOffsetMin (i + 1) es

/-- `formatShutdownMessage` from `shutdown.service.ts` lines 57-66. -/
def formatShutdownMessage (tzOffsetMin : Int) (events : List ShutdownEvent) : String :=
  match events with
  | [] => "✅ Електрохарчування є"
  | _ =>
    "⚡ <b>Заплановані відключення (" ++ toString events.length ++ ")</b>\n" ++
      "\n" ++ String.intercalate "\n\n" (formatEventsFrom tzOffsetMin 0 events)

/-- `hashesEqual` from `src/utils/hash.ts`: plain string equality. -/
def hashesEqual (hash1 hash2 : String) : Bool :=
  hash1 == hash2

/-- `ShutdownCheckResult` from `src/types/index.ts`. -/
structure ShutdownCheckResult where
  hasEvents : Bool
  events : List ShutdownEvent
  formattedMessage : String
  contentHash : String
deriving DecidableEq

/-- `checkShutdownEvents` from `shutdown.service.ts` lines 71-90, with
the fetched upstream events injected and `createContentHash` (the
Node.js SHA-256 digest, an external library call) abstracted as the
deterministic function `hashFn`; the real digest always returns a
non-empty 64-character hex string. -/
def checkShutdownEvents (hashFn : String → String) (tzOffsetMin : Int)
    (events : List ShutdownEvent) : ShutdownCheckResult :=
  let formattedMessage := formatShutdownMessage tzOffsetMin events
  { hasEvents := decide (0 < events.length)
    events := events
    formattedMessage := formattedMessage
    contentHash := hashFn formattedMessage }

/-- `StateData` from `src/repositories/state.repository.ts` lines 6-11. -/
structure StateData where
  lastMessageHash : Option String
  lastCheckTime : Option String
  lastEventIds : List String
  subscribers : List Int
deriving DecidableEq

/-- `updateLastMessageHash` from `state.repository.ts` lines 77-84: load,
spread, overwrite the hash and the check time (`now` stands for
`new Date().toISOString()`), save. -/
def updateLastMessageHash (hash : String) (now : String) (st : StateData) : StateData :=
  { st with lastMessageHash := some hash, lastCheckTime := some now }

/-- `addSubscriber` from `state.repository.ts` lines 109-123: report
`false` and save nothing when the id is already present, otherwise
append it and report `true`.  Returns the reported flag and the state
as persisted after the call. -/
def addSubscriber (chatId : Int) (st : StateData) : Bool × StateData :=
  if chatId ∈ st.subscribers then (false, st)
  else (true, { st with subscribers := st.subscribers ++ [chatId] })

/-- `removeSubscriber` from `state.repository.ts` lines 128-142. -/
def removeSubscriber (chatId : Int) (st : StateData) : Bool × StateData :=
  if chatId ∈ st.subscribers then
    (true, { st with subscribers := st.subscribers.filter (fun i => decide (i ≠ chatId)) })
  else (false, st)

/-- The recipient list of `sendMessageToAllSubscribers`
(`src/providers/telegram.provider.ts`): every subscriber, plus the
configured default chat id when it is not already subscribed. -/
def recipientsOf (subscribers : List Int) (defaultChatId : Int) : List Int :=
  if defaultChatId ∈ subscribers then subscribers else subscribers ++ [defaultChatId]

/-- Success test on one settled delivery. -/
def deliveryOk (r : Except String Unit) : Bool :=
  match r with
  | Except.ok _ => true
  | Except.error _ => false

/-- Observable outcome of one broadcast: the recipients attempted (in
dispatch order) and the counts reported after all settle. -/
structure BroadcastReport where
  attempted : List Int
  successful : Nat
  failed : Nat
deriving DecidableEq

/-- `sendMessageToAllSubscribers` from `telegram.provider.ts` lines
252-289: build the deduplicated recipient list, warn and stop on an
empty list, otherwise dispatch to every recipient and collect the
settled outcomes (`Promise.allSettled` never short-circuits), counting
fulfilled and rejected deliveries.  Each delivery's outcome is the
external `sendOutcome`; the broadcast itself always completes. -/
def sendMessageToAllSubscribers (sendOutcome : Int → Except String Unit)
    (subscribers : List Int) (defaultChatId : Int) : BroadcastReport :=
  let allRecipients := recipientsOf subscribers defaultChatId
  if allRecipients.length = 0 then ⟨[], 0, 0⟩
  else
    let results := allRecipients.map sendOutcome
    ⟨allRecipients,
      (results.filter deliveryOk).length,
      (results.filter (fun r => !deliveryOk r)).length⟩

/-- The skip test of `checkAndNotify`:
`lastHash && hashesEqual(lastHash, result.contentHash)` — the stored
hash must be non-null, truthy (non-empty) and equal to the fresh
hash. -/
def checkSkip (lastHash : Option String) (contentHash : String) : Bool :=
  match lastHash with
  | none => false
  | some h => !(h == "") && hashesEqual h contentHash

/-- `checkAndNotify` from `src/services/notification.service.ts` lines
9-35 as a state transition: fetch and format (`events` injected), load
the stored hash, skip when unchanged, otherwise broadcast the formatted
message and persist the new hash and check time.  Returns the list of
broadcast payloads and the resulting persisted state. -/
def checkAndNotify (hashFn : String → String) (tzOffsetMin : Int)
    (events : List ShutdownEvent) (now : String) (st : StateData) :
    List String × StateData :=
  let result := checkShutdownEvents hashFn tzOffsetMin events
  if checkSkip st.lastMessageHash result.contentHash then ([], st)
  else ([result.formattedMessage], updateLastMessageHash result.contentHash now st)

/-- `forceNotify` from `notification.service.ts` lines 40-55: broadcast
and persist unconditionally. -/
def forceNotify (hashFn : String → String) (tzOffsetMin : Int)
    (events : List ShutdownEvent) (now : String) (st : StateData) :
    List String × StateData :=
  let result := checkShutdownEvents hashFn tzOffsetMin events
  ([result.formattedMessage], updateLastMessageHash result.contentHash now st)

/-- A concrete hash function standing in for the SHA-256 digest in
witness instantiations. -/
def wHash (s : String) : String :=
  "#" ++ s

/-- A concrete operation for retry witnesses: fails on attempts other
than 2, succeeds on attempt 2. -/
def wOp (k : Nat) : Except String Nat :=
  if k = 2 then Except.ok 42 else Except.error ("boom" ++ toString k)

/-- A concrete delivery outcome for broadcast witnesses: recipient 1
fails, everyone else succeeds. -/
def wSend (chatId : Int) : Except String Unit :=
  if chatId = 1 then Except.error "blocked" else Except.ok ()

/-- A concrete HTML payload for the parser witness: the marker table
with a six-cell row, a two-cell row, and another six-cell row whose
second cell carries markup and padding. -/
def w1Html : String :=
  "<table class=\"table-shutdowns\"><tbody><tr><td>A</td><td>B</td><td>C</td><td>D</td><td>E</td><td>F</td></tr><tr><td>x</td><td>y</td></tr><tr><td>G</td><td> <b>H</b> </td><td>I</td><td>J</td><td>K</td><td>L</td></tr></tbody></table>"

/-- The tbody region the tbody regex extracts from `w1Html`. -/
def w1Tbody : String :=
  "<tr><td>A</td><td>B</td><td>C</td><td>D</td><td>E</td><td>F</td></tr><tr><td>x</td><td>y</td></tr><tr><td>G</td><td> <b>H</b> </td><td>I</td><td>J</td><td>K</td><td>L</td></tr>"

/-- A concrete event with an ISO-UTC start instant, for the timezone
dependence theorem. -/
def wTzEvent : ShutdownEvent :=
  { id := EventId.num 1
    dateStart := "2024-01-01T00:30:00Z"
    dateEnd := "2024-01-01T04:00:00Z"
    type := "Ремонт"
    shutdownType := "Планове"
    queueGpv := "1"
    queueGav := "-"
    status := "Заплановано"
    comment := none
    address := none }

end HoeBot

namespace HoeBot

/-- Helper: the lengths of a boolean filter and its complement add up to
the length of the list. -/
theorem length_filter_add_length_filter_not (p : α → Bool) (l : List α) :
    (l.filter p).length + (l.filter (fun a => !p a)).length = l.length := by
  induction l with
  | nil => simp
  | cons a l ih =>
    cases h : p a <;> simp [List.filter_cons, h] <;> omega

/-- Helper: `normalizeEvent` succeeds with the core record on every
non-null element. -/
theorem normalizeEvent_ok_of_ne_null (j : Json) (h : j ≠ Json.null) :
    normalizeEvent j = Except.ok (normalizeEventCore j) := by
  cases j with
  | null => exact absurd rfl h
  | bool b => rfl
  | num n => rfl
  | str s => rfl
  | arr xs => rfl
  | obj fields => rfl

/-- Helper: elementwise normalization succeeds on a list without null
elements and maps the core normalization over it. -/
theorem normalizeList_ok (xs : List Json) (h : ∀ x ∈ xs, x ≠ Json.null) :
    normalizeList xs = Except.ok (xs.map normalizeEventCore) := by
  induction xs with
  | nil => rfl
  | cons x xs ih =>
    have hx := normalizeEvent_ok_of_ne_null x (h x (List.mem_cons_self x xs))
    have ihh := ih (fun y hy => h y (List.mem_cons_of_mem x hy))
    simp [normalizeList, hx, ihh]

/-- C10: `updateLastMessageHash` modifies only the `lastMessageHash` and
`lastCheckTime` fields of the persisted state: for every prior state,
the subscribers list and the lastEventIds list in the saved state are
unchanged. -/
theorem updateLastMessageHash_frame_spec (hash now : String) (st : StateData) :
    (updateLastMessageHash hash now st).subscribers = st.subscribers ∧
    (updateLastMessageHash hash now st).lastEventIds = st.lastEventIds ∧
    (updateLastMessageHash hash now st).lastMessageHash = some hash ∧
    (updateLastMessageHash hash now st).lastCheckTime = some now :=
  ⟨rfl, rfl, rfl, rfl⟩

/-- C5: `addSubscriber` is idempotent: starting from any state where the
id is absent, calling it twice returns `true` then `false`, the second
call stores nothing new, the stored subscriber list contains exactly
one copy of the id, and no call ever introduces a duplicate into a
duplicate-free subscriber list. -/
theorem addSubscriber_idem_spec (st : StateData) (chatId : Int)
    (habs : chatId ∉ st.subscribers) :
    (addSubscriber chatId st).1 = true ∧
    (addSubscriber chatId (addSubscriber chatId st).2).1 = false ∧
    (addSubscriber chatId (addSubscriber chatId st).2).2 = (addSubscriber chatId st).2 ∧
    ((addSubscriber chatId st).2).subscribers.count chatId = 1 ∧
    (∀ t : StateData, t.subscribers.Nodup → ((addSubscriber chatId t).2).subscribers.Nodup) := by
  have h1 : addSubscriber chatId st =
      (true, { st with subscribers := st.subscribers ++ [chatId] }) := by
    simp [addSubscriber, habs]
  have hmem : chatId ∈ st.subscribers ++ [chatId] := by simp
  refine ⟨by rw [h1], ?_, ?_, ?_, ?_⟩
  · rw [h1]; simp [addSubscriber, hmem]
  · rw [h1]; simp [addSubscriber, hmem]
  · rw [h1]
    simp [List.count_append, List.count_eq_zero_of_not_mem habs]
  · intro t ht
    by_cases hm : chatId ∈ t.subscribers
    · simp [addSubscriber, hm, ht]
    · simp [addSubscriber, hm, List.nodup_append, ht, hm]

/-- Witness for C5 at a concrete state and id. -/
theorem addSubscriber_idem_spec_witness :
    ((addSubscriber 5 ⟨none, none, [], [3]⟩).2).subscribers.count 5 = 1 :=
  (addSubscriber_idem_spec ⟨none, none, [], [3]⟩ 5 (by decide)).2.2.2.1

/-- C9: `forceNotify` dispatches the formatted message to all
subscribers and persists the new content hash even when the freshly
computed hash equals the stored last-message hash. -/
theorem forceNotify_spec (hashFn : String → String) (tzOffsetMin : Int)
    (events : List ShutdownEvent) (now : String) (st : StateData)
    (_heq : st.lastMessageHash = some (checkShutdownEvents hashFn tzOffsetMin events).contentHash) :
    (forceNotify hashFn tzOffsetMin events now st).1 =
      [(checkShutdownEvents hashFn tzOffsetMin events).formattedMessage] ∧
    (forceNotify hashFn tzOffsetMin events now st).2 =
      updateLastMessageHash (checkShutdownEvents hashFn tzOffsetMin events).contentHash now st ∧
    (forceNotify hashFn tzOffsetMin events now st).2.lastMessageHash =
      some (checkShutdownEvents hashFn tzOffsetMin events).contentHash :=
  ⟨rfl, rfl, rfl⟩

/-- Witness for C9: a state already holding the fresh hash still gets a
broadcast and a persist. -/
theorem forceNotify_spec_witness :
    (forceNotify wHash 0 [] "t1" ⟨some "#✅ Електрохарчування є", none, [], []⟩).1 =
      ["✅ Електрохарчування є"] :=
  (forceNotify_spec wHash 0 [] "t1" ⟨some "#✅ Електрохарчування є", none, [], []⟩ rfl).1

/-- C2 counterexample: the claim that every normalized event has
non-empty `dateStart`/`dateEnd`/`type` fails on the raw element `{}`,
whose normalization yields an empty `dateStart`. -/
theorem normalizeEvent_nonempty_refuted :
    ¬ (∀ raw ev, normalizeEvent raw = Except.ok ev →
        ev.dateStart ≠ "" ∧ ev.dateEnd ≠ "" ∧ ev.type ≠ "") := by
  intro h
  exact (h (Json.obj []) (normalizeEventCore (Json.obj [])) rfl).1 rfl

/-- C2 amended: for every non-null raw upstream element, normalization
succeeds and yields string fields that are never null or undefined:
`dateStart`/`dateEnd` default to the empty string when every alias is
absent or nullish, and `type` defaults to the non-empty marker
"Невідомо". -/
theorem normalizeEvent_amended_spec (j : Json) (hnn : j ≠ Json.null) :
    normalizeEvent j = Except.ok (normalizeEventCore j) ∧
    (aliasChain j ["dateStart", "date_start", "startDate"] = none →
      (normalizeEventCore j).dateStart = "") ∧
    (aliasChain j ["dateEnd", "date_end", "endDate"] = none →
      (normalizeEventCore j).dateEnd = "") ∧
    (aliasChain j ["type", "eventType"] = none →
      (normalizeEventCore j).type = "Невідомо" ∧ (normalizeEventCore j).type ≠ "") := by
  refine ⟨normalizeEvent_ok_of_ne_null j hnn, ?_, ?_, ?_⟩
  · intro h; simp [normalizeEventCore, h, jsToString]
  · intro h; simp [normalizeEventCore, h, jsToString]
  · intro h
    constructor
    · simp [normalizeEventCore, h, jsToString]
    · simp [normalizeEventCore, h, jsToString]

/-- Witness for C2 amended at a concrete element carrying none of the
aliases. -/
theorem normalizeEvent_amended_spec_witness :
    normalizeEvent (Json.obj [("x", Json.num 1)]) =
      Except.ok (normalizeEventCore (Json.obj [("x", Json.num 1)])) :=
  (normalizeEvent_amended_spec (Json.obj [("x", Json.num 1)])
    (fun h => Json.noConfusion h)).1

/-- C3 counterexample: the parser can throw on a non-HTML payload — the
valid JSON payload `[null]` reaches `normalizeEvent(null)`, whose
property read throws a TypeError. -/
theorem parseNonHtml_never_throws_refuted :
    ¬ (∀ payload : Option Json, ∃ evs, parseNonHtmlPayload payload = Except.ok evs) := by
  intro h
  obtain ⟨evs, hevs⟩ := h (some (Json.arr [Json.null]))
  simp [parseNonHtmlPayload, parseHoeResponse, normalizeList, normalizeEvent] at hevs

/-- C3 amended: for every payload not classified as HTML, a JSON parse
failure yields the empty sequence; a JSON array whose elements are all
non-null yields its elements normalized (a null element instead raises
a TypeError); an object whose `data` is such an array yields that
array's elements normalized; an object whose `data` is not an array —
including the success-flag-without-data response — yields the empty
sequence; and every scalar payload yields the empty sequence, all
without throwing. -/
theorem parseNonHtml_amended_spec :
    parseNonHtmlPayload none = Except.ok [] ∧
    (∀ xs, (∀ x ∈ xs, x ≠ Json.null) →
      parseNonHtmlPayload (some (Json.arr xs)) = Except.ok (xs.map normalizeEventCore)) ∧
    (∀ fields xs, fields.lookup "data" = some (Json.arr xs) →
      (∀ x ∈ xs, x ≠ Json.null) →
      parseNonHtmlPayload (some (Json.obj fields)) = Except.ok (xs.map normalizeEventCore)) ∧
    (∀ fields, (∀ xs, fields.lookup "data" ≠ some (Json.arr xs)) →
      parseNonHtmlPayload (some (Json.obj fields)) = Except.ok []) ∧
    (∀ b, parseNonHtmlPayload (some (Json.bool b)) = Except.ok []) ∧
    (∀ n, parseNonHtmlPayload (some (Json.num n)) = Except.ok []) ∧
    (∀ s, parseNonHtmlPayload (some (Json.str s)) = Except.ok []) ∧
    parseNonHtmlPayload (some Json.null) = Except.ok [] := by
  refine ⟨rfl, ?_, ?_, ?_, fun b => rfl, fun n => rfl, fun s => rfl, rfl⟩
  · intro xs h
    simp [parseNonHtmlPayload, parseHoeResponse, normalizeList_ok xs h]
  · intro fields xs hdata h
    simp [parseNonHtmlPayload, parseHoeResponse, hdata, normalizeList_ok xs h]
  · intro fields h
    have hcase : parseNonHtmlPayload (some (Json.obj fields)) =
        (match fields.lookup "data" with
         | some (Json.arr xs) => normalizeList xs
         | _ => Except.ok []) := rfl
    rw [hcase]
    cases hk : fields.lookup "data" with
    | none => rfl
    | some v =>
      cases v with
      | arr xs => exact absurd hk (h xs)
      | null => rfl
      | bool b => rfl
      | num n => rfl
      | str s => rfl
      | obj o => rfl

/-- C7: for every subscriber set (duplicate-free, as the store
maintains) and configured default recipient, the broadcast recipient
list contains every subscriber plus the default recipient with no
recipient appearing twice; every recipient is attempted for every
combination of per-recipient outcomes (no failure prevents the other
attempts), the settled counts cover all recipients, and the dispatch
itself completes with a report rather than failing. -/
theorem sendMessageToAllSubscribers_spec (sendOutcome : Int → Except String Unit)
    (subscribers : List Int) (defaultChatId : Int) (hnd : subscribers.Nodup) :
    (sendMessageToAllSubscribers sendOutcome subscribers defaultChatId).attempted =
      recipientsOf subscribers defaultChatId ∧
    (∀ s ∈ subscribers,
      s ∈ (sendMessageToAllSubscribers sendOutcome subscribers defaultChatId).attempted) ∧
    defaultChatId ∈ (sendMessageToAllSubscribers sendOutcome subscribers defaultChatId).attempted ∧
    (sendMessageToAllSubscribers sendOutcome subscribers defaultChatId).attempted.Nodup ∧
    (sendMessageToAllSubscribers sendOutcome subscribers defaultChatId).attempted.count
      defaultChatId = 1 ∧
    (sendMessageToAllSubscribers sendOutcome subscribers defaultChatId).successful +
        (sendMessageToAllSubscribers sendOutcome subscribers defaultChatId).failed =
      (sendMessageToAllSubscribers sendOutcome subscribers defaultChatId).attempted.length := by
  have hne : (recipientsOf subscribers defaultChatId).length ≠ 0 := by
    unfold recipientsOf
    by_cases hm : defaultChatId ∈ subscribers
    · simp only [if_pos hm]
      intro hlen
      rw [List.length_eq_zero] at hlen
      subst hlen
      exact absurd hm (List.not_mem_nil defaultChatId)
    · simp [if_neg hm]
  have hrep : sendMessageToAllSubscribers sendOutcome subscribers defaultChatId =
      ⟨recipientsOf subscribers defaultChatId,
        (((recipientsOf subscribers defaultChatId).map sendOutcome).filter deliveryOk).length,
        (((recipientsOf subscribers defaultChatId).map sendOutcome).filter
          (fun r => !deliveryOk r)).length⟩ := by
    simp [sendMessageToAllSubscribers, hne]
  rw [hrep]
  refine ⟨rfl, ?_, ?_, ?_, ?_, ?_⟩
  · intro s hs
    unfold recipientsOf
    by_cases hm : defaultChatId ∈ subscribers
    · simp [if_pos hm, hs]
    · simp [if_neg hm, hs]
  · unfold recipientsOf
    by_cases hm : defaultChatId ∈ subscribers
    · simp [if_pos hm, hm]
    · simp [if_neg hm]
  · unfold recipientsOf
    by_cases hm : defaultChatId ∈ subscribers
    · simp [if_pos hm, hnd]
    · simp [if_neg hm, List.nodup_append, hnd, hm]
  · unfold recipientsOf
    by_cases hm : defaultChatId ∈ subscribers
    · simp only [if_pos hm]
      exact List.count_eq_one_of_mem hnd hm
    · simp only [if_neg hm]
      simp [List.count_append, List.count_eq_zero_of_not_mem hm]
  · simp only
    rw [length_filter_add_length_filter_not deliveryOk
      ((recipientsOf subscribers defaultChatId).map sendOutcome)]
    exact List.length_map _ _

/-- Witness for C7 at a concrete subscriber list, default id and mixed
outcomes (recipient 1 fails). -/
theorem sendMessageToAllSubscribers_spec_witness :
    (sendMessageToAllSubscribers wSend [1, 2] 7).attempted = [1, 2, 7] := by
  have h := (sendMessageToAllSubscribers_spec wSend [1, 2] 7 (by decide)).1
  rw [h]
  decide

/-- C6: if the stored last-message hash is non-null and equals the
freshly computed content hash, `checkAndNotify` sends no notification
and writes no state; consequently two consecutive check cycles over
identical upstream responses, the first of which persists its hash,
send exactly one notification.  The hypothesis that the fresh hash is
non-empty reflects the real `createContentHash`, whose SHA-256 hex
digest is always 64 characters. -/
theorem checkAndNotify_dedup_spec (hashFn : String → String) (tzOffsetMin : Int)
    (events : List ShutdownEvent) (now1 now2 : String) (st : StateData)
    (hne : (checkShutdownEvents hashFn tzOffsetMin events).contentHash ≠ "") :
    (∀ h0, st.lastMessageHash = some h0 →
      h0 = (checkShutdownEvents hashFn tzOffsetMin events).contentHash →
      checkAndNotify hashFn tzOffsetMin events now1 st = ([], st)) ∧
    (checkSkip st.lastMessageHash (checkShutdownEvents hashFn tzOffsetMin events).contentHash
        = false →
      (checkAndNotify hashFn tzOffsetMin events now1 st).1 =
        [(checkShutdownEvents hashFn tzOffsetMin events).formattedMessage] ∧
      (checkAndNotify hashFn tzOffsetMin events now2
          (checkAndNotify hashFn tzOffsetMin events now1 st).2).1 = [] ∧
      (checkAndNotify hashFn tzOffsetMin events now2
          (checkAndNotify hashFn tzOffsetMin events now1 st).2).2 =
        (checkAndNotify hashFn tzOffsetMin events now1 st).2 ∧
      (checkAndNotify hashFn tzOffsetMin events now1 st).1.length +
          (checkAndNotify hashFn tzOffsetMin events now2
            (checkAndNotify hashFn tzOffsetMin events now1 st).2).1.length = 1) := by
  have hskip_eq : checkSkip
      (some (checkShutdownEvents hashFn tzOffsetMin events).contentHash)
      (checkShutdownEvents hashFn tzOffsetMin events).contentHash = true := by
    simp [checkSkip, hashesEqual, hne]
  constructor
  · intro h0 hst hheq
    subst hheq
    simp [checkAndNotify, hst, hskip_eq]
  · intro hskip
    have h1 : checkAndNotify hashFn tzOffsetMin events now1 st =
        ([(checkShutdownEvents hashFn tzOffsetMin events).formattedMessage],
          updateLastMessageHash
            (checkShutdownEvents hashFn tzOffsetMin events).contentHash now1 st) := by
      simp [checkAndNotify, hskip]
    have h2 : checkAndNotify hashFn tzOffsetMin events now2
        (updateLastMessageHash
          (checkShutdownEvents hashFn tzOffsetMin events).contentHash now1 st) =
        ([], updateLastMessageHash
          (checkShutdownEvents hashFn tzOffsetMin events).contentHash now1 st) := by
      simp [checkAndNotify, updateLastMessageHash, hskip_eq]
    rw [h1]
    refine ⟨rfl, ?_, ?_, ?_⟩
    · simp only [h2]
    · simp only [h2]
    · simp only [h2, List.length_singleton, List.length_nil]

/-- Witness for C6: from a state holding a different stored hash, the
first cycle broadcasts once and the second identical cycle is
skipped. -/
theorem checkAndNotify_dedup_spec_witness :
    (checkAndNotify wHash 0 [] "t2"
        (checkAndNotify wHash 0 [] "t1" ⟨some "old", none, [], []⟩).2).1 = [] := by
  have h := (checkAndNotify_dedup_spec wHash 0 [] "t1" "t2" ⟨some "old", none, [], []⟩
    (by decide)).2 (by decide)
  exact h.2.1

/-- Helper: the attempt loop never executes more attempts than it was
given. -/
theorem retryAux_tried_length_le (op : Nat → Except E A) (d : Nat) :
    ∀ (l : List Nat) (last : Option E), ((retryAux op d l last).tried).length ≤ l.length := by
  intro l
  induction l with
  | nil => intro last; simp [retryAux]
  | cons i rest ih =>
    intro last
    cases rest with
    | nil =>
      cases hop : op i <;> simp [retryAux, hop]
    | cons j rs =>
      cases hop : op i with
      | ok a => simp [retryAux, hop]
      | error e =>
        have h := ih (some e)
        simp only [List.length_cons] at h
        simp only [retryAux, hop, List.length_cons]
        omega

/-- Helper: when the first success within the remaining attempt indices
`m, m+1, ..., m+len-1` is at index `k`, the loop returns that success,
executes exactly attempts `m..k`, fires the callback on each failure
`m..k-1` with its error, and waits the fixed delay after each. -/
theorem retryAux_success (op : Nat → Except E A) (d : Nat) :
    ∀ (len m k : Nat) (a : A) (last : Option E),
      m ≤ k → k < m + len → op k = Except.ok a →
      (∀ j, m ≤ j → j < k → ∃ e, op j = Except.error e) →
      (retryAux op d (List.range' m len) last).result = Except.ok a ∧
      (retryAux op d (List.range' m len) last).tried = List.range' m (k - m + 1) ∧
      (retryAux op d (List.range' m len) last).waits = List.replicate (k - m) d ∧
      ((retryAux op d (List.range' m len) last).calls).map Prod.snd = List.range' m (k - m) ∧
      (∀ p ∈ (retryAux op d (List.range' m len) last).calls, op p.2 = Except.error p.1) := by
  intro len
  induction len with
  | zero =>
    intro m k a last h1 h2 _ _
    omega
  | succ len ih =>
    intro m k a last h1 h2 hok hfail
    rcases Nat.eq_or_lt_of_le h1 with heq | hlt
    · subst heq
      cases len with
      | zero =>
        rw [List.range'_one]
        simp [retryAux, hok, Nat.sub_self]
      | succ len' =>
        rw [List.range'_succ, List.range'_succ]
        simp [retryAux, hok, Nat.sub_self]
    · obtain ⟨em, hem⟩ := hfail m le_rfl hlt
      cases len with
      | zero => omega
      | succ len' =>
        have ihh := ih (m + 1) k a (some em) (by omega) (by omega) hok
          (fun j hj1 hj2 => hfail j (by omega) hj2)
        rw [List.range'_succ] at ihh ⊢
        rw [List.range'_succ]
        obtain ⟨ih1, ih2, ih3, ih4, ih5⟩ := ihh
        refine ⟨?_, ?_, ?_, ?_, ?_⟩
        · simpa [retryAux, hem] using ih1
        · have hk1 : k - m + 1 = (k - (m + 1) + 1) + 1 := by omega
          rw [hk1, List.range'_succ]
          simp only [retryAux, hem]
          rw [ih2]
        · have hk2 : k - m = (k - (m + 1)) + 1 := by omega
          rw [hk2, List.replicate_succ]
          simp only [retryAux, hem]
          rw [ih3]
        · have hk2 : k - m = (k - (m + 1)) + 1 := by omega
          rw [hk2, List.range'_succ]
          simp only [retryAux, hem, List.map_cons]
          rw [ih4]
        · intro p hp
          simp only [retryAux, hem, List.mem_cons] at hp
          rcases hp with hp | hp
          · subst hp; exact hem
          · exact ih5 p hp

/-- Helper: when every remaining attempt fails, the loop rethrows the
last error, executes every attempt, and fires the callback with a wait
on each non-final failure. -/
theorem retryAux_allfail (op : Nat → Except E A) (d : Nat) :
    ∀ (len m : Nat) (eN : E) (last : Option E),
      1 ≤ len → op (m + len - 1) = Except.error eN →
      (∀ j, m ≤ j → j < m + len - 1 → ∃ e, op j = Except.error e) →
      (retryAux op d (List.range' m len) last).result = Except.error (some eN) ∧
      (retryAux op d (List.range' m len) last).tried = List.range' m len ∧
      (retryAux op d (List.range' m len) last).waits = List.replicate (len - 1) d ∧
      ((retryAux op d (List.range' m len) last).calls).map Prod.snd =
        List.range' m (len - 1) ∧
      (∀ p ∈ (retryAux op d (List.range' m len) last).calls, op p.2 = Except.error p.1) := by
  intro len
  induction len with
  | zero => intro m eN last h1; omega
  | succ len ih =>
    intro m eN last _ hN hfail
    cases len with
    | zero =>
      have hm : m + 1 - 1 = m := by omega
      rw [hm] at hN
      rw [List.range'_one]
      simp [retryAux, hN]
    | succ len' =>
      have hidx : m + (len' + 1 + 1) - 1 = (m + 1) + (len' + 1) - 1 := by omega
      obtain ⟨em, hem⟩ := hfail m le_rfl (by omega)
      have ihh := ih (m + 1) eN (some em) (by omega) (by rw [← hidx]; exact hN)
        (fun j hj1 hj2 => hfail j (by omega) (by omega))
      rw [List.range'_succ] at ihh ⊢
      rw [List.range'_succ]
      obtain ⟨ih1, ih2, ih3, ih4, ih5⟩ := ihh
      simp only [Nat.add_sub_cancel] at ih3 ih4
      refine ⟨?_, ?_, ?_, ?_, ?_⟩
      · simpa [retryAux, hem] using ih1
      · simp only [retryAux, hem]
        rw [ih2]
      · rw [Nat.add_sub_cancel, List.replicate_succ]
        simp only [retryAux, hem]
        rw [ih3]
      · rw [Nat.add_sub_cancel, List.range'_succ]
        simp only [retryAux, hem, List.map_cons]
        rw [ih4]
      · intro p hp
        simp only [retryAux, hem, List.mem_cons] at hp
        rcases hp with hp | hp
        · subst hp; exact hem
        · exact ih5 p hp

/-- C4: for every operation, attempt count n ≥ 1 and fixed delay,
`withRetry` executes the operation at most n times; if attempt k is the
first success it returns that result after executing exactly attempts
1..k, invoking the callback with the error and attempt number on each
failed attempt 1..k-1 and waiting the same fixed delay after each
(constant backoff); if all n attempts fail it propagates the last
observed failure, having executed all n attempts and invoked the
callback (with a wait) exactly on attempts 1..n-1. -/
theorem withRetry_spec (op : Nat → Except E A) (n d : Nat) (hn : 1 ≤ n) :
    (withRetry op n d).tried.length ≤ n ∧
    (∀ k a, 1 ≤ k → k ≤ n → op k = Except.ok a →
      (∀ j, 1 ≤ j → j < k → ∃ e, op j = Except.error e) →
      (withRetry op n d).result = Except.ok a ∧
      (withRetry op n d).tried = List.range' 1 k ∧
      (withRetry op n d).waits = List.replicate (k - 1) d ∧
      ((withRetry op n d).calls).map Prod.snd = List.range' 1 (k - 1) ∧
      (∀ p ∈ (withRetry op n d).calls, op p.2 = Except.error p.1)) ∧
    (∀ eN, op n = Except.error eN →
      (∀ j, 1 ≤ j → j < n → ∃ e, op j = Except.error e) →
      (withRetry op n d).result = Except.error (some eN) ∧
      (withRetry op n d).tried = List.range' 1 n ∧
      (withRetry op n d).waits = List.replicate (n - 1) d ∧
      ((withRetry op n d).calls).map Prod.snd = List.range' 1 (n - 1) ∧
      (∀ p ∈ (withRetry op n d).calls, op p.2 = Except.error p.1)) := by
  refine ⟨?_, ?_, ?_⟩
  · have h := retryAux_tried_length_le op d (List.range' 1 n) none
    simpa [withRetry] using h
  · intro k a hk1 hkn hok hfail
    have h := retryAux_success op d n 1 k a none hk1 (by omega) hok
      (fun j hj1 hj2 => hfail j hj1 hj2)
    have harith : k - 1 + 1 = k := by omega
    rw [harith] at h
    exact h
  · intro eN hN hfail
    have hidx : 1 + n - 1 = n := by omega
    have h := retryAux_allfail op d n 1 eN none hn (by rw [hidx]; exact hN)
      (fun j hj1 hj2 => hfail j hj1 (by omega))
    exact h

/-- Witness for C4: a concrete operation succeeding on attempt 2 out of
3, with one callback invocation and one fixed wait. -/
theorem withRetry_spec_witness :
    (withRetry wOp 3 5).result = Except.ok 42 ∧
    (withRetry wOp 3 5).tried = [1, 2] ∧
    (withRetry wOp 3 5).waits = [5] ∧
    (withRetry wOp 3 5).calls = [("boom1", 1)] := by
  have h := (withRetry_spec wOp 3 5 (by decide)).2.1 2 42 (by decide) (by decide) rfl
    (by intro j hj1 hj2
        have hj : j = 1 := by omega
        subst hj
        exact ⟨"boom1", rfl⟩)
  refine ⟨h.1, ?_, ?_, ?_⟩
  · rw [h.2.1]; rfl
  · rw [h.2.2.1]; rfl
  · rfl

/-- C8: the formatter is not independent of the process timezone
environment — `toLocaleString` pins the locale to uk-UA but passes no
`timeZone` option, so the same event sequence renders differently under
different process timezone offsets (here UTC and UTC+2), breaking
byte-identical output across environments. -/
theorem formatShutdownMessage_timezone_dependent :
    formatDateTime 0 "2024-01-01T00:30:00Z" = "01.01.2024, 00:30" ∧
    formatDateTime 120 "2024-01-01T00:30:00Z" = "01.01.2024, 02:30" ∧
    formatShutdownMessage 0 [wTzEvent] ≠ formatShutdownMessage 120 [wTzEvent] := by
  refine ⟨by decide, by decide, by decide⟩

/-- Helper: dropping through a character strictly shrinks the input. -/
theorem dropThrough_length_lt (ch : Char) :
    ∀ l out, dropThrough ch l = some out → out.length < l.length := by
  intro l
  induction l with
  | nil => intro out h; simp [dropThrough] at h
  | cons c rest ih =>
    intro out h
    by_cases hc : c = ch
    · simp [dropThrough, hc] at h
      subst h
      simp
    · simp [dropThrough, hc] at h
      have := ih out h
      simp
      omega

/-- Helper: splitting at a non-empty pattern leaves a suffix strictly
shorter than the input. -/
theorem splitAtPattern_length_lt (pat : List Char) (hp : pat ≠ []) :
    ∀ s pre post, splitAtPattern pat s = some (pre, post) → post.length < s.length := by
  intro s
  induction s with
  | nil => intro pre post h; simp [splitAtPattern] at h
  | cons c rest ih =>
    intro pre post h
    by_cases hl : lowerPrefix pat (c :: rest) = true
    · simp [splitAtPattern, hl] at h
      have hpost : post = (c :: rest).drop pat.length := h.2.symm
      subst hpost
      have hplen : 1 ≤ pat.length := by
        cases pat with
        | nil => exact absurd rfl hp
        | cons p ps => simp
      have := List.length_drop pat.length (c :: rest)
      simp only [this, List.length_cons]
      omega
    · simp only [splitAtPattern, hl, Bool.false_eq_true, if_false] at h
      cases hrec : splitAtPattern pat rest with
      | none => rw [hrec] at h; simp at h
      | some pr =>
        rw [hrec] at h
        obtain ⟨pre', post'⟩ := pr
        simp at h
        have := ih pre' post' hrec
        have hpost : post = post' := h.2.symm
        subst hpost
        simp
        omega

/-- Helper: a successful tag-block match leaves a continuation suffix
strictly shorter than the input (the match consumes at least the
closing tag). -/
theorem matchTagBlock_length_lt (openTag closeTag : List Char) (hc : closeTag ≠ []) :
    ∀ s content after, matchTagBlock openTag closeTag s = some (content, after) →
      after.length < s.length := by
  intro s
  induction s with
  | nil => intro content after h; simp [matchTagBlock] at h
  | cons c rest ih =>
    intro content after h
    by_cases hl : lowerPrefix openTag (c :: rest) = true
    · cases hd : dropThrough '>' ((c :: rest).drop openTag.length) with
      | none =>
        simp only [matchTagBlock, hl, if_true, hd] at h
        have := ih content after h
        simp only [List.length_cons]
        omega
      | some afterGt =>
        cases hsp : splitAtPattern closeTag afterGt with
        | none =>
          simp only [matchTagBlock, hl, if_true, hd, hsp] at h
          have := ih content after h
          simp only [List.length_cons]
          omega
        | some pr =>
          obtain ⟨content', after'⟩ := pr
          simp only [matchTagBlock, hl, if_true, hd, hsp, Option.some.injEq,
            Prod.mk.injEq] at h
          have h1 := splitAtPattern_length_lt closeTag hc afterGt content' after' hsp
          have h2 := dropThrough_length_lt '>' ((c :: rest).drop openTag.length) afterGt hd
          have h3 : ((c :: rest).drop openTag.length).length ≤ (c :: rest).length := by
            rw [List.length_drop]
            omega
          have hafter : after = after' := h.2.symm
          subst hafter
          omega
    · simp only [matchTagBlock, hl, Bool.false_eq_true, if_false] at h
      have := ih content after h
      simp only [List.length_cons]
      omega

/-- Helper: the block-extraction fuel is semantically inert once it
exceeds the input length, so `extractBlocks` with fuel `length + 1`
models the unbounded `exec` loop exactly. -/
theorem extractBlocksF_fuel_irrelevant (openTag closeTag : List Char) (hc : closeTag ≠ []) :
    ∀ f₁ f₂ s, s.length < f₁ → s.length < f₂ →
      extractBlocksF openTag closeTag f₁ s = extractBlocksF openTag closeTag f₂ s := by
  intro f₁
  induction f₁ with
  | zero => intro f₂ s h1; omega
  | succ f ih =>
    intro f₂ s h1 h2
    cases f₂ with
    | zero => omega
    | succ f' =>
      cases hm : matchTagBlock openTag closeTag s with
      | none => simp only [extractBlocksF, hm]
      | some pr =>
        obtain ⟨content, rest⟩ := pr
        have hlt := matchTagBlock_length_lt openTag closeTag hc s content rest hm
        simp only [extractBlocksF, hm]
        rw [ih f' rest (by omega) (by omega)]

/-- Helper: the tag-stripping fuel is semantically inert once it exceeds
the input length. -/
theorem stripTagsF_fuel_irrelevant :
    ∀ f₁ f₂ s, s.length < f₁ → s.length < f₂ → stripTagsF f₁ s = stripTagsF f₂ s := by
  intro f₁
  induction f₁ with
  | zero => intro f₂ s h1; omega
  | succ f ih =>
    intro f₂ s h1 h2
    cases f₂ with
    | zero => omega
    | succ f' =>
      cases s with
      | nil => rfl
      | cons c rest =>
        by_cases hc : c = '<'
        · cases hd : dropThrough '>' rest with
          | none =>
            simp only [stripTagsF, hc, if_true, hd]
            simp only [List.length_cons] at h1 h2
            rw [ih f' rest (by omega) (by omega)]
          | some after =>
            have hlt := dropThrough_length_lt '>' rest after hd
            simp only [stripTagsF, hc, if_true, hd]
            simp only [List.length_cons] at h1 h2
            rw [ih f' after (by omega) (by omega)]
        · simp only [stripTagsF, hc, Bool.false_eq_true, if_false]
          simp only [List.length_cons] at h1 h2
          rw [ih f' rest (by omega) (by omega)]

/-- Helper: the numbering loop of `parseHtmlTable` is the qualifying-row
filter zipped with consecutive ids starting at the initial counter. -/
theorem buildEvents_eq (rs : List (List Char)) (n : Nat) :
    buildEvents rs n =
      ((List.range' n (rs.filter qualRow).length).zip (rs.filter qualRow)).map
        (fun p => mkEventFromCells p.1 (extractCells p.2)) := by
  induction rs generalizing n with
  | nil => simp [buildEvents]
  | cons r rs ih =>
    cases hq : qualRow r with
    | true =>
      rw [List.filter_cons_of_pos hq]
      simp only [buildEvents, hq, if_true, List.length_cons, List.range'_succ,
        List.zip_cons_cons, List.map_cons]
      rw [ih (n + 1)]
    | false =>
      rw [List.filter_cons_of_neg (by simp [hq])]
      simp only [buildEvents, hq, Bool.false_eq_true, if_false]
      exact ih n

/-- C1: for every HTML payload containing the `table-shutdowns` marker
and a tbody region, the parser yields exactly one event per table row
with six or more cells, in row order, with sequential integer ids
starting at 1 (the `zip` with `range' 1`), the first six
stripped-and-trimmed cells mapped in fixed order to work type, shutdown
type, GPV queue, GAV queue, start time and end time
(`mkEventFromCells`), while every row with fewer than six cells is
silently dropped (the `filter`) without disturbing its siblings. -/
theorem parseHtmlTable_rows_spec (html : String) (tbody rest : List Char)
    (hmark : containsSub "table-shutdowns".data html.data = true)
    (htb : matchTagBlock "<tbody".data "</tbody>".data html.data = some (tbody, rest)) :
    parseHtmlTable html =
      ((List.range' 1 ((extractRows tbody).filter qualRow).length).zip
          ((extractRows tbody).filter qualRow)).map
        (fun p => mkEventFromCells p.1 (extractCells p.2)) := by
  unfold parseHtmlTable
  rw [hmark]
  simp only [if_true, htb]
  exact buildEvents_eq (extractRows tbody) 1

set_option maxRecDepth 100000 in
set_option maxHeartbeats 1000000 in
/-- Witness for C1: the concrete marker table with two six-cell rows
around a two-cell row parses to exactly two events with ids 1 and 2,
with the stray row dropped and every cell stripped and trimmed. -/
theorem parseHtmlTable_rows_spec_witness :
    parseHtmlTable w1Html =
      [mkEventFromCells 1 ["A", "B", "C", "D", "E", "F"],
        mkEventFromCells 2 ["G", "H", "I", "J", "K", "L"]] := by
  have h := parseHtmlTable_rows_spec w1Html w1Tbody.data "</table>".data (by decide) (by decide)
  rw [h]
  decide

/-- Witness for C3 amended: a concrete data-array payload normalizes to
one event with the alias fields mapped. -/
theorem parseNonHtml_amended_spec_witness :
    parseNonHtmlPayload
        (some (Json.obj [("data", Json.arr [Json.obj [("id", Json.num 1),
          ("date_start", Json.str "X"), ("date_end", Json.str "Y"),
          ("type", Json.str "T")]])])) =
      Except.ok [normalizeEventCore (Json.obj [("id", Json.num 1),
        ("date_start", Json.str "X"), ("date_end", Json.str "Y"),
        ("type", Json.str "T")])] := by
  have h := parseNonHtml_amended_spec.2.2.1
    [("data", Json.arr [Json.obj [("id", Json.num 1),
      ("date_start", Json.str "X"), ("date_end", Json.str "Y"),
      ("type", Json.str "T")]])]
    [Json.obj [("id", Json.num 1), ("date_start", Json.str "X"),
      ("date_end", Json.str "Y"), ("type", Json.str "T")]]
    rfl
    (by intro x hx
        simp only [List.mem_singleton] at hx
        subst hx
        exact fun hc => Json.noConfusion hc)
  simpa using h

end HoeBot
